import Mathlib

/-!
Verification of the JSDoc docstring parser (src/docstring_parser/jsdoc.py).

The source file is embedded shallowly: Python strings become Lean `String`
(operated on through their `List Char` data), Python's fallible paths
(uncaught exceptions such as `ParseError`, `AttributeError`,
`UnboundLocalError`, `ValueError`, `IndexError`) become `Except` errors,
and each helper of the Python module becomes a Lean function with the same
name and structure.  The shared data model (`docstring_parser/common.py`:
keyword sets and record classes) is not part of the sources; those pieces
are modelled from the spec and marked as such.
-/

namespace Jsdoc

/-- ASCII model of Python str whitespace used by lstrip and strip. -/
def pyIsSpace (c : Char) : Bool :=
  c == ' ' || c == '\t' || c == '\n' || c == '\r' || c == '\x0b' || c == '\x0c'

/-- Python str.lstrip with no argument: drop leading whitespace. -/
def pyLstrip (l : List Char) : List Char := l.dropWhile pyIsSpace

/-- Python str.rstrip with no argument: drop trailing whitespace. -/
def pyRstrip (l : List Char) : List Char := (l.reverse.dropWhile pyIsSpace).reverse

/-- Python str.strip with no argument: drop whitespace at both ends. -/
def pyStrip (l : List Char) : List Char := pyRstrip (pyLstrip l)

/-- Python str.strip with a one-character argument: drop that character at both ends. -/
def pyStripChar (c : Char) (l : List Char) : List Char :=
  ((l.dropWhile (· == c)).reverse.dropWhile (· == c)).reverse

/-- Test whether a list starts with the given character. -/
def startsWithChar (c : Char) (l : List Char) : Bool :=
  match l with
  | x :: _ => x == c
  | [] => false

/-- Test whether a list ends with the given character. -/
def endsWithChar (c : Char) (l : List Char) : Bool :=
  match l.getLast? with
  | some x => x == c
  | none => false

/-- Python str.split with a one-character separator and a bounded number of
splits (str.split(sep, maxsplit)).  Splitting the empty string yields one
empty field, as in Python. -/
def pySplitAux (sep : Char) : Nat → List Char → List (List Char)
  | _, [] => [[]]
  | maxs, c :: t =>
    if c = sep ∧ 0 < maxs then
      [] :: pySplitAux sep (maxs - 1) t
    else
      match pySplitAux sep maxs t with
      | h :: r => (c :: h) :: r
      | [] => [[c]]

/-- Python str.split with a one-character separator and no maxsplit: the
list length bounds the number of possible splits, so it acts as unlimited. -/
def pySplitAll (sep : Char) (l : List Char) : List (List Char) :=
  pySplitAux sep l.length l

/-- Python str.expandtabs with the default tab size 8: each tab advances to
the next multiple of 8 columns; the column counter resets on newline and
carriage return. -/
def expandTabsAux : Nat → List Char → List Char
  | _, [] => []
  | col, c :: t =>
    if c = '\t' then
      List.replicate (8 - col % 8) ' ' ++ expandTabsAux (col + (8 - col % 8)) t
    else if c = '\n' ∨ c = '\r' then
      c :: expandTabsAux 0 t
    else
      c :: expandTabsAux (col + 1) t

/-- Common margin of the lines after the first: the minimum indentation of
the non-blank ones, none when every such line is blank
(inspect.cleandoc's margin computation, with none for sys.maxsize). -/
def marginOf (lines : List (List Char)) : Option Nat :=
  lines.foldl
    (fun acc line =>
      if (pyLstrip line).length ≠ 0 then
        let ind := line.length - (pyLstrip line).length
        match acc with
        | none => some ind
        | some m => some (min m ind)
      else acc)
    none

/-- Model of inspect.cleandoc: expand tabs, strip the common margin from
the lines after the first, left-strip the first line, and drop leading and
trailing blank lines. -/
def cleandocL (doc : List Char) : List Char :=
  let lines : List (List Char) := pySplitAll '\n' (expandTabsAux 0 doc)
  let lines : List (List Char) :=
    match lines with
    | [] => []
    | h :: t =>
      pyLstrip h ::
        (match marginOf t with
         | none => t
         | some m => t.map (fun line => line.drop m))
  let lines := (lines.reverse.dropWhile (· = [])).reverse
  let lines := lines.dropWhile (· = [])
  List.intercalate ['\n'] lines

/-- Modelled from the spec: the param keyword class of the shared data
model (common.py, absent from the sources): param, typedef and property
share the param argument-parsing rules. -/
def PARAM_KEYWORDS : List String := ["param", "typedef", "property"]

/-- Modelled from the spec: the return keyword family of the shared data
model (common.py, absent from the sources). -/
def RETURNS_KEYWORDS : List String := ["return", "returns"]

/-- Modelled from the spec: the yield keyword family of the shared data
model (common.py, absent from the sources); membership makes is_generator
true. -/
def YIELDS_KEYWORDS : List String := ["yield", "yields"]

/-- Modelled from the spec: the raises keyword class of the shared data
model (common.py, absent from the sources): throws. -/
def RAISES_KEYWORDS : List String := ["throws"]

/-- Modelled from the spec: the deprecation keyword class of the shared
data model (common.py, absent from the sources). -/
def DEPRECATION_KEYWORDS : List String := ["deprecated"]

/-- Modelled from the spec: the metadata record variants of the shared
data model (common.py, absent from the sources).  Optional fields are
None-initialised in the builder, hence Option types. -/
inductive DocstringMeta where
  | meta (args : List String) (description : String)
  | param (args : List String) (description : String) (arg_name : String)
      (type_name : Option String) (is_optional : Option Bool)
      (defaultVal : Option String)
  | returns (args : List String) (description : String)
      (type_name : Option String) (is_generator : Bool)
  | raises (args : List String) (description : String)
      (type_name : Option String)
  | deprecated (args : List String) (version : Option String)
      (description : String)
deriving DecidableEq, Repr

/-- Modelled from the spec: the docstring dialect tag of the shared data
model (the code stamps results with the REST style). -/
inductive DocstringStyle where
  | rest
  | jsdocStyle
deriving DecidableEq, Repr

/-- Modelled from the spec: the parse result record of the shared data
model (common.py, absent from the sources). -/
structure Docstring where
  style : DocstringStyle
  short_description : Option String
  long_description : Option String
  blank_after_short_description : Bool
  blank_after_long_description : Bool
  meta : List DocstringMeta
deriving DecidableEq, Repr

deriving instance DecidableEq for Except

/-- The failure modes of the Python code: the deliberate ParseError plus
the uncaught exceptions its buggy paths can raise. -/
inductive PErr where
  | parseError (msg : String)
  | attributeError
  | unboundLocalError
  | valueError
  | indexError
deriving DecidableEq, Repr

/-- Scan for a closing brace before any newline, returning the segment up
to and including it (the lazy tail of the regex brace pattern, whose dot
does not cross newlines). -/
def braceSeg : List Char → Option (List Char)
  | [] => none
  | c :: t =>
    if c = '\x7d' then some [c]
    else if c = '\n' then none
    else (braceSeg t).map (c :: ·)

/-- Model of re.search of a lazy brace span: the leftmost position opening
a brace that closes before a newline, shortest span there. -/
def braceSearch : List Char → Option (List Char)
  | [] => none
  | c :: t =>
    if c = '\x7b' then
      match braceSeg t with
      | some seg => some (c :: seg)
      | none => braceSearch t
    else braceSearch t

/-- Model of re.match of a lazy brace span: anchored at the start. -/
def braceMatchA (l : List Char) : Option (List Char) :=
  match l with
  | c :: t => if c = '\x7b' then (braceSeg t).map (c :: ·) else none
  | [] => none

/-- Scan for a closing bracket before any newline (lazy tail of the
bracket pattern). -/
def bracketSeg : List Char → Option (List Char)
  | [] => none
  | c :: t =>
    if c = ']' then some [c]
    else if c = '\n' then none
    else (bracketSeg t).map (c :: ·)

/-- Model of re.match of a lazy bracket span: anchored at the start. -/
def bracketMatch (l : List Char) : Option (List Char) :=
  match l with
  | c :: t => if c = '[' then (bracketSeg t).map (c :: ·) else none
  | [] => none

/-- Character class of the version pattern tail: [0-9a-z.] under
re.IGNORECASE, so uppercase letters match as well. -/
def versChar (c : Char) : Bool :=
  c.isDigit || ('a' ≤ c ∧ c ≤ 'z') || ('A' ≤ c ∧ c ≤ 'Z') || c = '.'

/-- Core of the deprecation version pattern after the optional leading v:
one or more digits, a mandatory dot group of [0-9a-z.]+ (case
insensitive), a space, then a nonempty same-line remainder captured as the
description. -/
def deprCore (l1 : List Char) : Option (List Char × List Char) :=
  let ds := l1.takeWhile Char.isDigit
  let l2 := l1.dropWhile Char.isDigit
  if ds = [] then none
  else
    match l2 with
    | '.' :: l3 =>
      let run := l3.takeWhile versChar
      let l4 := l3.dropWhile versChar
      if run = [] then none
      else
        match l4 with
        | ' ' :: l5 =>
          let dpart := l5.takeWhile (fun c => c != '\n')
          if dpart = [] then none
          else some (ds ++ '.' :: run, dpart)
        | _ => none
    | _ => none

/-- Model of the anchored, case-insensitive deprecation regex
(the version capture and the description capture), applied to the
description of a deprecation tag. -/
def pyDeprMatch (l : List Char) : Option (List Char × List Char) :=
  match l with
  | [] => none
  | c :: t =>
    if c = 'v' ∨ c = 'V' then (deprCore t).map (fun p => (c :: p.1, p.2))
    else deprCore (c :: t)

/-- Spec-side characterization of the version pattern actually accepted
by the deprecation regex, stated independently of the matcher: the
description decomposes into an optional leading v or V, one or more
digits, a mandatory dot group of version characters, a space, a nonempty
newline-free remainder, and a tail that is empty or starts at a newline.
The amended claim is stated against this decomposition. -/
def VersionSplit (desc token rest : List Char) : Prop :=
  ∃ v ds run tail,
    (v = [] ∨ v = ['v'] ∨ v = ['V']) ∧
    ds ≠ [] ∧ (∀ c ∈ ds, c.isDigit = true) ∧
    run ≠ [] ∧ (∀ c ∈ run, versChar c = true) ∧
    rest ≠ [] ∧ (∀ c ∈ rest, ¬c = '\n') ∧
    (tail = [] ∨ ∃ t2, tail = '\n' :: t2) ∧
    token = v ++ (ds ++ ('.' :: run)) ∧
    desc = v ++ (ds ++ ('.' :: (run ++ (' ' :: (rest ++ tail)))))

/-- Loop state of the param token scan: is_optional, default, type_name
are None-initialised; arg_name starts unbound (none models an unbound
Python local). -/
structure PState where
  isOpt : Option Bool
  defVal : Option String
  typeName : Option String
  argName : Option String
deriving DecidableEq, Repr

/-- The per-token scan of the param branch of _build_meta (lines 45-70 of
jsdoc.py).  A brace span sets type_name (a trailing = marks optional); a
bracket span sets arg_name from the raw group, but the bracket-stripping
conditionals of the source test type_name (raising AttributeError when no
brace span was seen), and an equals sign splits the group once into name
and default (ValueError if the split does not give exactly two parts);
otherwise the token is the plain argument name. -/
def paramFold : PState → List String → Except PErr PState
  | st, [] => Except.ok st
  | st, name :: restToks =>
    match braceSearch name.data with
    | some g =>
      let tn := g
      let tn := if startsWithChar '\x7b' tn then tn.drop 1 else tn
      let tn := if endsWithChar '\x7d' tn then tn.dropLast else tn
      if endsWithChar '=' tn then
        paramFold ⟨some true, st.defVal, some (String.mk tn.dropLast), st.argName⟩ restToks
      else
        paramFold ⟨st.isOpt, st.defVal, some (String.mk tn), st.argName⟩ restToks
    | none =>
      match bracketMatch name.data with
      | some g =>
        match st.typeName with
        | none => Except.error PErr.attributeError
        | some tn =>
          let tn := if startsWithChar '[' tn.data then String.mk (tn.data.drop 1) else tn
          let tn := if endsWithChar ']' tn.data then String.mk (tn.data.dropLast) else tn
          if '=' ∈ g then
            match pySplitAll '=' g with
            | [a, b] =>
              paramFold ⟨some true, some (String.mk b), some tn, some (String.mk a)⟩ restToks
            | _ => Except.error PErr.valueError
          else
            paramFold ⟨some true, st.defVal, some tn, some (String.mk g)⟩ restToks
      | none => paramFold ⟨st.isOpt, st.defVal, st.typeName, some name⟩ restToks

/-- The trailing-token type scan shared verbatim by the returns branch
(lines 83-91) and the raises branch (lines 114-122): the last anchored
brace span wins, stripped of its braces. -/
def typeScan (toks : List String) : Option String :=
  toks.foldl
    (fun acc name =>
      match braceMatchA name.data with
      | some g =>
        let tn := g
        let tn := if startsWithChar '\x7b' tn then tn.drop 1 else tn
        let tn := if endsWithChar '\x7d' tn then tn.dropLast else tn
        some (String.mk tn)
      | none => acc)
    none

/-- Model of _build_meta (jsdoc.py lines 23-128): dispatch on keyword-set
membership of args[0] and build the corresponding record. -/
def buildMeta (args : List String) (desc : String) : Except PErr DocstringMeta :=
  match args.head? with
  | none => Except.error PErr.indexError
  | some key =>
    if key ∈ PARAM_KEYWORDS then
      (if args.length = 3 then Except.ok (args.drop 1)
       else if args.length = 2 then
         Except.ok (((args.get? 1).getD "").data.map (fun ch => String.mk [ch]))
       else
         Except.error (PErr.parseError
           ("Expected two or three arguments for a " ++ key ++ " keyword."))) >>=
      fun toks =>
      paramFold ⟨none, none, none, none⟩ toks >>= fun st =>
      match st.argName with
      | none => Except.error PErr.unboundLocalError
      | some a =>
        Except.ok (DocstringMeta.param args desc a st.typeName st.isOpt st.defVal)
    else if key ∈ RETURNS_KEYWORDS ∨ key ∈ YIELDS_KEYWORDS then
      Except.ok (DocstringMeta.returns args desc (typeScan (args.drop 1))
        (key ∈ YIELDS_KEYWORDS))
    else if key ∈ DEPRECATION_KEYWORDS then
      Except.ok (DocstringMeta.deprecated args
        ((pyDeprMatch desc.data).map (fun p => String.mk p.1))
        (match pyDeprMatch desc.data with
         | some p => String.mk p.2
         | none => desc))
    else if key ∈ RAISES_KEYWORDS then
      Except.ok (DocstringMeta.raises args desc (typeScan (args.drop 1)))
    else
      Except.ok (DocstringMeta.meta args desc)

/-- Description normalization of the tag interpreter (lines 221-224):
strip the description; when it spans several lines, split off the first
line and rejoin it with the cleandoc'ed remainder. -/
def normalizeDesc (d : String) : String :=
  let ds := pyStrip d.data
  if '\n' ∈ ds then
    match pySplitAux '\n' 1 ds with
    | [f, r] => String.mk (f ++ '\n' :: cleandocL r)
    | _ => String.mk ds
  else String.mk ds

/-- Per-tag grammar of the tag interpreter (lines 191-226), applied to the
stripped tag name and the rest of the chunk: param/typedef/property need a
three-way space split of two or three fields, return/throws/type a
two-way split, every other tag passes its whole rest as description. -/
def interpretTag (tag rest : String) : Except PErr DocstringMeta :=
  if tag ∈ (["param", "typedef", "property"] : List String) then
    match pySplitAux ' ' 2 (pyStripChar '\n' (pyLstrip rest.data)) with
    | [u, a, d] =>
      buildMeta [tag, String.mk u, String.mk (pyStripChar '\n' a)]
        (normalizeDesc (String.mk d))
    | [u, a] =>
      buildMeta [tag, String.mk u, String.mk (pyStripChar '\n' a)]
        (normalizeDesc "")
    | _ =>
      Except.error (PErr.parseError
        ("Expected two or three arguments for a \"" ++ tag ++ "\" keyword."))
  else if tag ∈ (["return", "throws", "type"] : List String) then
    match pySplitAux ' ' 1 (pyLstrip rest.data) with
    | [a, d] => buildMeta [tag, String.mk a] (normalizeDesc (String.mk d))
    | [a] => buildMeta [tag, String.mk a] (normalizeDesc "")
    | _ =>
      Except.error (PErr.parseError
        ("Expected two arguments for a \"" ++ tag ++ "\" keyword."))
  else
    buildMeta [String.mk (pyStripChar '\n' tag.data)] (normalizeDesc rest)

/-- First split of a raw chunk (lines 176-189): left-strip, split once on
the space character, and strip at-signs from both ends of the tag; with no
space the chunk is a bare tag with empty rest.  The dead default mirrors
the unreachable ValueError branch of the source. -/
def firstSplitOf (c : String) : String × String :=
  match pySplitAux ' ' 1 (pyLstrip c.data) with
  | [t] => (String.mk (pyStripChar '@' t), "")
  | [t, d] => (String.mk (pyStripChar '@' t), String.mk d)
  | _ => ("", "")

/-- Processing of one raw chunk: the first split feeding the per-tag
grammar; the catch-all arm models the except-ValueError branch of the
source (dead code, as the split always yields one or two fields). -/
def processChunk (c : String) : Except PErr DocstringMeta :=
  match pySplitAux ' ' 1 (pyLstrip c.data) with
  | [t] => interpretTag (String.mk (pyStripChar '@' t)) ""
  | [t, d] => interpretTag (String.mk (pyStripChar '@' t)) (String.mk d)
  | _ =>
    Except.error (PErr.parseError
      ("Error parsing meta information near \"" ++ c ++ "\"."))

/-- Segmenter step one (lines 155-161): find the first line-start at-sign;
everything before is the description chunk, everything from it on the meta
chunk.  The boolean tracks whether the scan sits at a line start. -/
def segMeta (atStart : Bool) : List Char → (List Char × List Char)
  | [] => ([], [])
  | c :: t =>
    if atStart ∧ c = '@' then ([], c :: t)
    else
      let p := segMeta (c = '\n') t
      (c :: p.1, p.2)

/-- Segmenter step two (the finditer of lines 171-173): cut the meta chunk
before every at-sign that follows a newline; each chunk keeps its trailing
newlines.  The boolean records whether the previous character was a
newline (a line start under the multiline flag). -/
def chunksAux (prevNl : Bool) (cur : List Char) : List Char → List (List Char)
  | [] => [cur.reverse]
  | c :: t =>
    if prevNl ∧ c = '@' then cur.reverse :: chunksAux (c = '\n') [c] t
    else chunksAux (c = '\n') (c :: cur) t

/-- Split a meta chunk into raw per-tag chunks; the empty meta chunk has
no chunks (finditer finds no match). -/
def splitChunks : List Char → List (List Char)
  | [] => []
  | c :: t => chunksAux (c = '\n') [c] t

/-- The cleaned text the parse operates on (line 153). -/
def cleanedText (text : String) : List Char := cleandocL text.data

/-- The description chunk of the input (before the first line-start tag). -/
def descChunkOf (text : String) : List Char := (segMeta true (cleanedText text)).1

/-- The meta chunk of the input (from the first line-start tag on). -/
def metaChunkOf (text : String) : List Char := (segMeta true (cleanedText text)).2

/-- The raw tag chunks of the input, in textual order. -/
def parsedChunks (text : String) : List String :=
  (splitChunks (metaChunkOf text)).map (fun l => String.mk l)

/-- Helper mirroring the truthiness idioms parts[0]-or-None and
strip()-or-None. -/
def strOrNone (l : List Char) : Option String :=
  if l = [] then none else some (String.mk l)

/-- Description-section fields of the result (lines 163-169): short
description, long description, and the two blank-line flags, with the
class defaults when the description chunk has a single line. -/
def descSection (text : String) : Option String × Option String × Bool × Bool :=
  match pySplitAux '\n' 1 (descChunkOf text) with
  | [p0, ldc] =>
    (strOrNone p0, strOrNone (pyStrip ldc), startsWithChar '\n' ldc,
      ldc.reverse.take 2 == ['\n', '\n'])
  | [p0] => (strOrNone p0, none, false, false)
  | _ => (none, none, false, false)

/-- Effectful map over a list, stopping at the first error: the semantics
of the parse loop appending one record per chunk and aborting on the first
raised exception. -/
def mapE (f : α → Except ε β) : List α → Except ε (List β)
  | [] => Except.ok []
  | a :: t =>
    match f a with
    | Except.error e => Except.error e
    | Except.ok b =>
      match mapE f t with
      | Except.error e => Except.error e
      | Except.ok r => Except.ok (b :: r)

/-- Model of parse (jsdoc.py lines 131-231): clean the text, split off the
description section, segment the meta chunk, interpret every chunk in
order, and assemble the result (stamped with the REST style, as the
source does). -/
def jsParse (text : String) : Except PErr Docstring :=
  (mapE processChunk (parsedChunks text)).map fun metas =>
    { style := DocstringStyle.rest
      short_description := (descSection text).1
      long_description := (descSection text).2.1
      blank_after_short_description := (descSection text).2.2.1
      blank_after_long_description := (descSection text).2.2.2
      meta := metas }

/-! Helper lemmas about the Python string primitives. -/

theorem pySplitAux_cons (sep : Char) (m : Nat) (c : Char) (t : List Char) :
    pySplitAux sep m (c :: t) =
      if c = sep ∧ 0 < m then [] :: pySplitAux sep (m - 1) t
      else
        match pySplitAux sep m t with
        | h :: r => (c :: h) :: r
        | [] => [[c]] := rfl

theorem pySplitAux_zero (sep : Char) : ∀ l, pySplitAux sep 0 l = [l]
  | [] => rfl
  | c :: t => by
    rw [pySplitAux_cons, if_neg (fun hh => Nat.lt_irrefl 0 hh.2), pySplitAux_zero sep t]

theorem pySplitAux_no_sep (sep : Char) :
    ∀ (l : List Char), sep ∉ l → ∀ m, pySplitAux sep m l = [l]
  | [], _, _ => rfl
  | c :: t, h, m => by
    simp only [List.mem_cons, not_or] at h
    have hc : ¬(c = sep ∧ 0 < m) := fun hh => h.1 hh.1.symm
    rw [pySplitAux_cons, if_neg hc, pySplitAux_no_sep sep t (fun ht => h.2 ht) m]

theorem pySplitAux_append (sep : Char) :
    ∀ (pre : List Char), sep ∉ pre → ∀ post n,
      pySplitAux sep (n + 1) (pre ++ sep :: post) = pre :: pySplitAux sep n post
  | [], _, post, n => by
    rw [List.nil_append, pySplitAux_cons, if_pos ⟨rfl, Nat.succ_pos n⟩, Nat.add_sub_cancel]
  | c :: pre, h, post, n => by
    simp only [List.mem_cons, not_or] at h
    have hc : ¬(c = sep ∧ 0 < n + 1) := fun hh => h.1 hh.1.symm
    rw [List.cons_append, pySplitAux_cons, if_neg hc,
      pySplitAux_append sep pre (fun ht => h.2 ht) post n]

theorem pySplitAux_one_cases (sep : Char) :
    ∀ l : List Char, (∃ a, pySplitAux sep 1 l = [a]) ∨ ∃ a b, pySplitAux sep 1 l = [a, b]
  | [] => Or.inl ⟨[], rfl⟩
  | c :: t => by
    by_cases hc : c = sep
    · refine Or.inr ⟨[], t, ?_⟩
      rw [pySplitAux_cons, if_pos ⟨hc, Nat.zero_lt_one⟩, pySplitAux_zero sep t]
    · rcases pySplitAux_one_cases sep t with ⟨a, ha⟩ | ⟨a, b, hab⟩
      · refine Or.inl ⟨c :: a, ?_⟩
        rw [pySplitAux_cons, if_neg (fun hh => hc hh.1), ha]
      · refine Or.inr ⟨c :: a, b, ?_⟩
        rw [pySplitAux_cons, if_neg (fun hh => hc hh.1), hab]

theorem pyLstrip_cons_of_not_space {a : Char} (h : pyIsSpace a = false) (l : List Char) :
    pyLstrip (a :: l) = a :: l := by
  simp only [pyLstrip, List.dropWhile_cons, h, Bool.false_eq_true, if_false]

theorem pyStripChar_of_not_mem {c : Char} : ∀ {l : List Char}, c ∉ l → pyStripChar c l = l := by
  intro l h
  have hall : ∀ x ∈ l, (x == c) = false := by
    intro x hx
    simp only [beq_eq_false_iff_ne, ne_eq]
    exact fun e => h (e ▸ hx)
  have h1 : l.dropWhile (· == c) = l := by
    cases l with
    | nil => rfl
    | cons a t => exact List.dropWhile_cons_of_neg (by simp [hall a (List.mem_cons_self a t)])
  rw [pyStripChar, h1]
  have h2 : l.reverse.dropWhile (· == c) = l.reverse := by
    cases hr : l.reverse with
    | nil => rfl
    | cons a t =>
      refine List.dropWhile_cons_of_neg ?_
      have ha : a ∈ l := by
        rw [← List.mem_reverse, hr]
        exact List.mem_cons_self a t
      simp [hall a ha]
  rw [h2, List.reverse_reverse]

theorem mem_of_mem_pyStrip {a : Char} {l : List Char} (h : a ∈ pyStrip l) : a ∈ l := by
  rw [pyStrip, pyRstrip, pyLstrip] at h
  rw [List.mem_reverse] at h
  have h1 : a ∈ (l.dropWhile pyIsSpace).reverse :=
    List.Sublist.mem h (List.dropWhile_sublist pyIsSpace)
  rw [List.mem_reverse] at h1
  exact List.Sublist.mem h1 (List.dropWhile_sublist pyIsSpace)

theorem mem_of_takeWhile {p : Char → Bool} {a : Char} {l : List Char}
    (h : a ∈ l.takeWhile p) : p a = true := by
  have := List.all_takeWhile (p := p) (l := l)
  rw [List.all_eq_true] at this
  exact this a h

theorem takeWhile_all {p : Char → Bool} : ∀ {l : List Char}, (∀ a ∈ l, p a = true) →
    l.takeWhile p = l := by
  intro l h
  induction l with
  | nil => rfl
  | cons a t ih =>
    rw [List.takeWhile_cons_of_pos (h a (List.mem_cons_self a t))]
    rw [ih (fun x hx => h x (List.mem_cons_of_mem a hx))]

theorem takeWhile_stops (p : Char → Bool) (pre post : List Char)
    (hpre : ∀ a ∈ pre, p a = true) (hpost : ∀ a, post.head? = some a → p a = false) :
    (pre ++ post).takeWhile p = pre ∧ (pre ++ post).dropWhile p = post := by
  have hpt : post.takeWhile p = [] := by
    cases post with
    | nil => rfl
    | cons b t => exact List.takeWhile_cons_of_neg (by simp [hpost b rfl])
  have hpd : post.dropWhile p = post := by
    cases post with
    | nil => rfl
    | cons b t => exact List.dropWhile_cons_of_neg (by simp [hpost b rfl])
  constructor
  · rw [List.takeWhile_append_of_pos hpre, hpt, List.append_nil]
  · rw [List.dropWhile_append_of_pos hpre, hpd]

theorem dropWhile_head_false {p : Char → Bool} {l : List Char} {c : Char} {t : List Char}
    (h : l.dropWhile p = c :: t) : p c = false := by
  have := List.head?_dropWhile_not p l
  rw [h] at this
  exact this

/-! Helper lemmas about mapE and the chunk segmentation. -/

theorem mapE_ok {f : α → Except ε β} :
    ∀ {l : List α} {r : List β}, mapE f l = Except.ok r →
      r.length = l.length ∧
        ∀ i (h1 : i < l.length) (h2 : i < r.length),
          f (l.get ⟨i, h1⟩) = Except.ok (r.get ⟨i, h2⟩) := by
  intro l
  induction l with
  | nil =>
    intro r h
    simp only [mapE, Except.ok.injEq] at h
    subst h
    exact ⟨rfl, fun i h1 _ => absurd h1 (Nat.not_lt_zero i)⟩
  | cons a t ih =>
    intro r h
    simp only [mapE] at h
    cases hfa : f a with
    | error e => rw [hfa] at h; exact absurd h (by simp)
    | ok b =>
      rw [hfa] at h
      cases hmt : mapE f t with
      | error e => rw [hmt] at h; exact absurd h (by simp)
      | ok rt =>
        rw [hmt] at h
        simp only [Except.ok.injEq] at h
        subst h
        obtain ⟨hlen, hget⟩ := ih hmt
        refine ⟨by simp [hlen], ?_⟩
        intro i h1 h2
        cases i with
        | zero => simpa using hfa
        | succ j =>
          simp only [List.get]
          exact hget j (Nat.lt_of_succ_lt_succ h1) (Nat.lt_of_succ_lt_succ h2)

theorem mapE_error_of_mem {f : α → Except ε β} {x : α} {e : ε} :
    ∀ {l : List α}, x ∈ l → f x = Except.error e → ∃ e', mapE f l = Except.error e' := by
  intro l
  induction l with
  | nil => intro h; exact absurd h (List.not_mem_nil x)
  | cons a t ih =>
    intro hmem hfx
    rcases List.mem_cons.mp hmem with rfl | hmt
    · exact ⟨e, by simp [mapE, hfx]⟩
    · cases hfa : f a with
      | error e2 => exact ⟨e2, by simp [mapE, hfa]⟩
      | ok b =>
        obtain ⟨e', he'⟩ := ih hmt hfx
        exact ⟨e', by simp [mapE, hfa, he']⟩

theorem chunksAux_flatten : ∀ (l : List Char) (prevNl : Bool) (cur : List Char),
    (chunksAux prevNl cur l).flatten = cur.reverse ++ l := by
  intro l
  induction l with
  | nil => intro prevNl cur; simp [chunksAux]
  | cons c t ih =>
    intro prevNl cur
    by_cases h : prevNl ∧ c = '@'
    · simp [chunksAux, h, ih]
    · simp [chunksAux, h, ih]

theorem splitChunks_flatten : ∀ l : List Char, (splitChunks l).flatten = l := by
  intro l
  cases l with
  | nil => rfl
  | cons c t => simp [splitChunks, chunksAux_flatten]

theorem mk_data (s : String) : String.mk s.data = s := rfl

theorem pySplitOnce_append (sep : Char) {pre : List Char} (h : sep ∉ pre) (post : List Char) :
    pySplitAux sep 1 (pre ++ sep :: post) = [pre, post] := by
  rw [pySplitAux_append sep pre h post 0, pySplitAux_zero]

theorem pySplitTwice_append (sep : Char) {pre1 pre2 : List Char} (h1 : sep ∉ pre1)
    (h2 : sep ∉ pre2) (post : List Char) :
    pySplitAux sep 2 (pre1 ++ sep :: (pre2 ++ sep :: post)) = [pre1, pre2, post] := by
  rw [pySplitAux_append sep pre1 h1 (pre2 ++ sep :: post) 1, pySplitOnce_append sep h2 post]

theorem processChunk_eq (c : String) :
    processChunk c = interpretTag (firstSplitOf c).1 (firstSplitOf c).2 := by
  rcases pySplitAux_one_cases ' ' (pyLstrip c.data) with ⟨a, ha⟩ | ⟨a, b, hab⟩
  · simp [processChunk, firstSplitOf, ha]
  · simp [processChunk, firstSplitOf, hab]

theorem braceSeg_closes {m : List Char} (h : ∀ a ∈ m, ¬a = '\x7d' ∧ ¬a = '\n') :
    braceSeg (m ++ ['\x7d']) = some (m ++ ['\x7d']) := by
  induction m with
  | nil => rfl
  | cons a t ih =>
    have ha := h a (List.mem_cons_self a t)
    rw [List.cons_append, braceSeg, if_neg ha.1, if_neg ha.2,
      ih (fun x hx => h x (List.mem_cons_of_mem a hx))]
    rfl

theorem braceSearch_none : ∀ {l : List Char}, '\x7b' ∉ l → braceSearch l = none := by
  intro l h
  induction l with
  | nil => rfl
  | cons a t ih =>
    simp only [List.mem_cons, not_or] at h
    rw [braceSearch, if_neg (fun e => h.1 e.symm)]
    exact ih h.2

theorem bracketMatch_none {l : List Char} (h : '[' ∉ l) : bracketMatch l = none := by
  cases l with
  | nil => rfl
  | cons a t =>
    simp only [List.mem_cons, not_or] at h
    rw [bracketMatch, if_neg (fun e => h.1 e.symm)]

theorem data_mk (l : List Char) : (String.mk l).data = l := rfl

theorem splitOnce_tag (w : List Char) (hw : ' ' ∉ w) (r : List Char) :
    pySplitAux ' ' 1 (pyLstrip ('@' :: (w ++ ' ' :: r))) = ['@' :: w, r] := by
  rw [pyLstrip_cons_of_not_space (by decide)]
  rw [show '@' :: (w ++ ' ' :: r) = ('@' :: w) ++ ' ' :: r from by simp]
  refine pySplitOnce_append ' ' ?_ r
  intro hm
  rcases List.mem_cons.mp hm with he | hm2
  · exact absurd he (by decide)
  · exact hw hm2

theorem processChunk_tag_rest (w r : List Char) (hw : ' ' ∉ w) :
    processChunk (String.mk ('@' :: (w ++ ' ' :: r))) =
      interpretTag (String.mk (pyStripChar '@' ('@' :: w))) (String.mk r) := by
  simp only [processChunk, data_mk]
  rw [splitOnce_tag w hw r]

/-! The claims. -/

/-- C1: the spec says a chunk of the form at-param brace-T space
bracket-name-equals-default space desc yields arg_name "name" and default
"default" with the brackets stripped; the code instead applies the
bracket-stripping conditionals to type_name, so arg_name keeps its opening
bracket and default keeps the closing one.  This theorem records the
actual behaviour of the code at the failing input. -/
theorem c1_code_behavior :
    processChunk "@param \x7bT\x7d [name=default] desc" =
      Except.ok (DocstringMeta.param ["param", "\x7bT\x7d", "[name=default]"] "desc"
        "[name" (some "T") (some true) (some "default]")) := by decide

/-- C2: the spec says absent or malformed brace/bracket micro-syntax never
aborts the build; the code instead raises an uncaught AttributeError when
a bracket span is seen with no prior brace span (None.startswith), and an
uncaught UnboundLocalError when every token is a brace span (arg_name is
never assigned).  This theorem records both crashes at concrete inputs. -/
theorem c2_code_behavior :
    processChunk "@param [x=1] y" = Except.error PErr.attributeError ∧
      processChunk "@param \x7ba\x7d \x7bb\x7d" = Except.error PErr.unboundLocalError := by
  decide

/-- C3 counterexample: at the concrete well-formed chunk at-param brace-T
name desc the record's is_optional field is left unset (None), not False
as the claim states; the other three claimed fields do hold. -/
theorem c3_counterexample :
    processChunk "@param \x7bT\x7d name desc" =
        Except.ok (DocstringMeta.param ["param", "\x7bT\x7d", "name"] "desc" "name"
          (some "T") none none) ∧
      processChunk "@param \x7bT\x7d name desc" ≠
        Except.ok (DocstringMeta.param ["param", "\x7bT\x7d", "name"] "desc" "name"
          (some "T") (some false) none) := by decide

/-- C5 counterexample: the claim says a dot-free version token such as v2
matches the deprecation pattern; the code's pattern requires a mandatory
dot group after the digits, so at-deprecated v2 use X instead leaves
version unset and the description unchanged, contradicting the claimed
version v2 and description use X instead. -/
theorem c5_counterexample :
    processChunk "@deprecated v2 use X instead" =
        Except.ok (DocstringMeta.deprecated ["deprecated"] none "v2 use X instead") ∧
      processChunk "@deprecated v2 use X instead" ≠
        Except.ok (DocstringMeta.deprecated ["deprecated"] (some "v2") "use X instead") := by
  decide

/-- C6 counterexample: the claim says any whitespace character separates
the tag name from the rest; the code splits on the space character only,
so a tab after the tag word does not separate: the whole chunk becomes the
tag name (with the tab inside) and the rest is empty. -/
theorem c6_counterexample :
    firstSplitOf "@param\tx" = ("param\tx", "") ∧
      firstSplitOf "@param\tx" ≠ ("param", "x") := by decide

/-- C6 (amended): the tag interpreter obtains the pair of tag name and
rest by splitting the left-stripped chunk on the first SPACE character
only (other whitespace does not separate), the tag being stripped of
at-signs at both ends; when the chunk contains no space it is a bare tag
with empty rest. -/
theorem c6_amended (w r : String) (h : ' ' ∉ w.data) :
    firstSplitOf (String.mk ('@' :: w.data ++ ' ' :: r.data)) =
        (String.mk (pyStripChar '@' ('@' :: w.data)), r) ∧
      firstSplitOf (String.mk ('@' :: w.data)) =
        (String.mk (pyStripChar '@' ('@' :: w.data)), "") := by
  have hpre : ' ' ∉ ('@' :: w.data) := by
    intro hm
    rcases List.mem_cons.mp hm with he | hm2
    · exact absurd he (by decide)
    · exact h hm2
  constructor
  · simp only [firstSplitOf, data_mk]
    rw [List.cons_append, splitOnce_tag w.data h r.data]
  · simp only [firstSplitOf, data_mk]
    rw [pyLstrip_cons_of_not_space (by decide), pySplitAux_no_sep ' ' ('@' :: w.data) hpre 1]

/-- C6 amended, witness: the amended split at a concrete chunk with a
space and at the same bare tag without one. -/
theorem c6_amended_w :
    firstSplitOf "@param x" = ("param", "x") ∧ firstSplitOf "@param" = ("param", "") := by
  have h := c6_amended "param" "x" (by decide)
  exact h

/-- C7: for a chunk whose tag belongs to the yields keyword set, the tag
interpreter passes only the bare tag as args, so the builder's type scan
runs over no tokens: the record is returns-class with is_generator true
and type_name none, whatever brace spans the rest of the chunk holds. -/
theorem c7_yield (tag : String) (hmem : tag ∈ YIELDS_KEYWORDS) (rest : String) :
    processChunk (String.mk ('@' :: tag.data ++ ' ' :: rest.data)) =
      Except.ok (DocstringMeta.returns [tag] (normalizeDesc rest) none true) := by
  rcases (by simpa [YIELDS_KEYWORDS] using hmem : tag = "yield" ∨ tag = "yields") with rfl | rfl
  · rw [List.cons_append, processChunk_tag_rest ("yield" : String).data rest.data (by decide)]
    rw [mk_data]
    rw [show String.mk (pyStripChar '@' ('@' :: ("yield" : String).data)) = "yield" from by decide]
    rfl
  · rw [List.cons_append, processChunk_tag_rest ("yields" : String).data rest.data (by decide)]
    rw [mk_data]
    rw [show String.mk (pyStripChar '@' ('@' :: ("yields" : String).data)) = "yields" from by decide]
    rfl

/-- C7 witness: the yields theorem applied to tag yield and a rest that
even contains a brace span; the type is still none. -/
theorem c7_yield_w :
    processChunk "@yield \x7bT\x7d desc" =
      Except.ok (DocstringMeta.returns ["yield"] "\x7bT\x7d desc" none true) :=
  c7_yield "yield" (by decide) "\x7bT\x7d desc"

/-- C9: for a chunk whose stripped tag is return, throws or type, the
two-way space split always yields one or two fields, so the fatal-error
arm is unreachable and the chunk always produces a record, never a
grammar-arity error. -/
theorem c9_no_arity_error (c : String)
    (h : (firstSplitOf c).1 ∈ (["return", "throws", "type"] : List String)) :
    ∃ m, processChunk c = Except.ok m := by
  rw [processChunk_eq]
  have hmem : (firstSplitOf c).1 = "return" ∨ (firstSplitOf c).1 = "throws" ∨
      (firstSplitOf c).1 = "type" := by simpa using h
  rcases hmem with h1 | h1 | h1 <;> rw [h1] <;> simp only [interpretTag] <;>
    rw [if_neg (by decide), if_pos (by decide)] <;>
    rcases pySplitAux_one_cases ' ' (pyLstrip ((firstSplitOf c).2).data) with ⟨a, ha⟩ | ⟨a, b, hab⟩
  · rw [ha]; exact ⟨_, rfl⟩
  · rw [hab]; exact ⟨_, rfl⟩
  · rw [ha]; exact ⟨_, rfl⟩
  · rw [hab]; exact ⟨_, rfl⟩
  · rw [ha]; exact ⟨_, rfl⟩
  · rw [hab]; exact ⟨_, rfl⟩

/-- C9 witness: the theorem applied to a concrete return chunk. -/
theorem c9_no_arity_error_w : ∃ m, processChunk "@return \x7bint\x7d x" = Except.ok m :=
  c9_no_arity_error "@return \x7bint\x7d x" (by decide)

/-- C4: a chunk whose stripped tag is param, typedef or property and whose
remainder holds no whitespace at all (so it splits into at most one field
where two or three are required) makes the chunk processing raise the
grammar-arity parse error naming the tag, and the whole parse of any text
containing such a chunk yields no Docstring result. -/
theorem c4_arity_error (text c : String) (hc : c ∈ parsedChunks text)
    (ht : (firstSplitOf c).1 ∈ (["param", "typedef", "property"] : List String))
    (hw : ∀ ch ∈ pyStripChar '\n' (pyLstrip ((firstSplitOf c).2).data), pyIsSpace ch = false) :
    processChunk c = Except.error (PErr.parseError
        ("Expected two or three arguments for a \"" ++ (firstSplitOf c).1 ++ "\" keyword.")) ∧
      ∀ d, jsParse text ≠ Except.ok d := by
  have herr : processChunk c = Except.error (PErr.parseError
      ("Expected two or three arguments for a \"" ++ (firstSplitOf c).1 ++ "\" keyword.")) := by
    rw [processChunk_eq]
    simp only [interpretTag]
    rw [if_pos ht]
    have hnosep : ' ' ∉ pyStripChar '\n' (pyLstrip ((firstSplitOf c).2).data) := by
      intro hm
      have := hw ' ' hm
      simp [pyIsSpace] at this
    rw [pySplitAux_no_sep ' ' _ hnosep 2]
  refine ⟨herr, ?_⟩
  obtain ⟨e', he'⟩ := mapE_error_of_mem hc herr
  intro d hd
  simp only [jsParse] at hd
  rw [he'] at hd
  exact absurd hd (by simp [Except.map])

/-- C4 witness: the theorem applied to the bare at-param input. -/
theorem c4_arity_error_w :
    processChunk "@param" = Except.error (PErr.parseError
      "Expected two or three arguments for a \"param\" keyword.") :=
  (c4_arity_error "@param" "@param" (by decide) (by decide) (by decide)).1

theorem foldr_append_mk : ∀ L : List (List Char),
    (L.map String.mk).foldr (fun a b => a ++ b) "" = String.mk L.flatten := by
  intro L
  induction L with
  | nil => rfl
  | cons a t ih =>
    rw [List.map_cons, List.foldr_cons, ih]
    rfl

/-- C8: whenever the parse succeeds, each metadata record at position i of
the result comes from the raw chunk at position i of the chunk sequence,
and the chunk sequence concatenates back to the meta chunk of the text:
the records appear in exactly the left-to-right order of their tags. -/
theorem c8_order (text : String) (d : Docstring) (h : jsParse text = Except.ok d) :
    (d.meta.length = (parsedChunks text).length ∧
      ∀ i (h1 : i < (parsedChunks text).length) (h2 : i < d.meta.length),
        processChunk ((parsedChunks text).get ⟨i, h1⟩) = Except.ok (d.meta.get ⟨i, h2⟩)) ∧
      (parsedChunks text).foldr (fun a b => a ++ b) "" = String.mk (metaChunkOf text) := by
  have hm : mapE processChunk (parsedChunks text) = Except.ok d.meta := by
    simp only [jsParse] at h
    cases he : mapE processChunk (parsedChunks text) with
    | error e => rw [he] at h; exact absurd h (by simp [Except.map])
    | ok ms =>
      rw [he] at h
      simp only [Except.map, Except.ok.injEq] at h
      rw [← h]
  obtain ⟨hlen, hget⟩ := mapE_ok hm
  refine ⟨⟨hlen, hget⟩, ?_⟩
  rw [parsedChunks, foldr_append_mk (splitChunks (metaChunkOf text)), splitChunks_flatten]

/-- C8 witness: the ordering theorem applied to a concrete one-tag input. -/
theorem c8_order_w :
    (Docstring.mk DocstringStyle.rest none none false false
        [DocstringMeta.meta ["xyz"] ""]).meta.length = (parsedChunks "@xyz").length :=
  ((c8_order "@xyz"
    ⟨DocstringStyle.rest, none, none, false, false, [DocstringMeta.meta ["xyz"] ""]⟩
    (by decide)).1).1

theorem endsWithChar_concat (c : Char) (l : List Char) : endsWithChar c (l ++ [c]) = true := by
  simp [endsWithChar, List.getLast?_concat]

theorem endsWithChar_ne_last {c : Char} {l : List Char} (h : l.getLast? ≠ some c) :
    endsWithChar c l = false := by
  cases hg : l.getLast? with
  | none => simp [endsWithChar, hg]
  | some x =>
    rw [hg] at h
    simp only [endsWithChar, hg, beq_eq_false_iff_ne, ne_eq]
    exact fun he => h (by rw [he])

theorem braceSearch_open {m : List Char} (h : ∀ a ∈ m, ¬a = '\x7d' ∧ ¬a = '\n') :
    braceSearch ('\x7b' :: (m ++ ['\x7d'])) = some ('\x7b' :: (m ++ ['\x7d'])) := by
  simp [braceSearch, braceSeg_closes h]

theorem paramFold_clean (T name : String)
    (hT1 : '\x7d' ∉ T.data) (hT3 : '\n' ∉ T.data) (hT4 : T.data.getLast? ≠ some '=')
    (hn1 : '\x7b' ∉ name.data) (hn2 : '[' ∉ name.data) :
    paramFold ⟨none, none, none, none⟩ [String.mk ('\x7b' :: (T.data ++ ['\x7d'])), name] =
      Except.ok ⟨none, none, some T, some name⟩ := by
  have hm : ∀ a ∈ T.data, ¬a = '\x7d' ∧ ¬a = '\n' :=
    fun a ha => ⟨fun e => hT1 (e ▸ ha), fun e => hT3 (e ▸ ha)⟩
  simp only [paramFold, data_mk, braceSearch_open hm]
  simp only [startsWithChar, beq_self_eq_true, if_pos, List.drop_succ_cons, List.drop_zero,
    endsWithChar_concat, List.dropLast_concat, endsWithChar_ne_last hT4, Bool.false_eq_true,
    if_false, if_true]
  simp only [paramFold, braceSearch_none hn1, bracketMatch_none hn2, mk_data]

/-- C3 (amended): for a well-formed single-line chunk at-param brace T
brace name desc (T free of closing braces, spaces, newlines and not
ending in an equals sign; name free of braces, brackets, spaces and
newlines; desc newline-free), the produced record has type_name T,
arg_name name and default none as the claim states, but is_optional is
left unset (none), not False. -/
theorem c3_amended (T name desc : String)
    (hT1 : '\x7d' ∉ T.data) (hT2 : ' ' ∉ T.data) (hT3 : '\n' ∉ T.data)
    (hT4 : T.data.getLast? ≠ some '=')
    (hn1 : '\x7b' ∉ name.data) (hn2 : '[' ∉ name.data)
    (hn3 : ' ' ∉ name.data) (hn4 : '\n' ∉ name.data)
    (hd1 : '\n' ∉ desc.data) :
    processChunk (String.mk ('@' :: (("param" : String).data ++ ' ' ::
        ('\x7b' :: (T.data ++ ('\x7d' :: (' ' :: (name.data ++ (' ' :: desc.data))))))))) =
      Except.ok (DocstringMeta.param
        ["param", String.mk ('\x7b' :: (T.data ++ ['\x7d'])), name]
        (String.mk (pyStrip desc.data)) name (some T) none none) := by
  have hpre1 : ' ' ∉ ('\x7b' :: (T.data ++ ['\x7d'])) := by simp [hT2]
  rw [processChunk_tag_rest ("param" : String).data
    ('\x7b' :: (T.data ++ ('\x7d' :: (' ' :: (name.data ++ (' ' :: desc.data)))))) (by decide)]
  rw [show String.mk (pyStripChar '@' ('@' :: ("param" : String).data)) = "param" from by decide]
  simp only [interpretTag, data_mk]
  rw [if_pos (show ("param" : String) ∈ (["param", "typedef", "property"] : List String) from
    by decide)]
  rw [pyLstrip_cons_of_not_space (by decide)]
  have hnl : '\n' ∉ ('\x7b' :: (T.data ++ ('\x7d' :: (' ' :: (name.data ++ (' ' :: desc.data)))))) := by
    simp [hT3, hn4, hd1]
  rw [pyStripChar_of_not_mem hnl]
  rw [show ('\x7b' :: (T.data ++ ('\x7d' :: (' ' :: (name.data ++ (' ' :: desc.data)))))) =
      ('\x7b' :: (T.data ++ ['\x7d'])) ++ ' ' :: (name.data ++ ' ' :: desc.data) from by simp]
  rw [pySplitTwice_append ' ' hpre1 hn3 desc.data]
  have hnd : normalizeDesc (String.mk desc.data) = String.mk (pyStrip desc.data) := by
    simp only [normalizeDesc, data_mk]
    rw [if_neg (fun hm => hd1 (mem_of_mem_pyStrip hm))]
  simp only [pyStripChar_of_not_mem hn4, mk_data, hnd]
  simp only [buildMeta, List.head?]
  rw [if_pos (show ("param" : String) ∈ PARAM_KEYWORDS from by decide)]
  rw [if_pos (show (["param", String.mk ('\x7b' :: (T.data ++ ['\x7d'])), name] :
    List String).length = 3 from by simp)]
  simp only [bind, Except.bind, List.drop_succ_cons, List.drop_zero]
  rw [paramFold_clean T name hT1 hT3 hT4 hn1 hn2]

/-- C3 amended, witness: the amended theorem at a concrete chunk. -/
theorem c3_amended_w :
    processChunk "@param \x7bint\x7d x the x" =
      Except.ok (DocstringMeta.param ["param", "\x7bint\x7d", "x"] "the x" "x"
        (some "int") none none) := by
  have h := c3_amended "int" "x" "the x" (by decide) (by decide) (by decide) (by decide)
    (by decide) (by decide) (by decide) (by decide) (by decide)
  exact h

theorem deprCore_eq (ds run rest tail : List Char)
    (hds : ds ≠ []) (hdsall : ∀ c ∈ ds, c.isDigit = true)
    (hrun : run ≠ []) (hrunall : ∀ c ∈ run, versChar c = true)
    (hrest : rest ≠ []) (hrestall : ∀ c ∈ rest, ¬c = '\n')
    (htail : tail = [] ∨ ∃ t2, tail = '\n' :: t2) :
    deprCore (ds ++ ('.' :: (run ++ (' ' :: (rest ++ tail))))) =
      some (ds ++ ('.' :: run), rest) := by
  obtain ⟨htw1, hdw1⟩ := takeWhile_stops Char.isDigit ds ('.' :: (run ++ (' ' :: (rest ++ tail))))
    hdsall
    (fun a ha => by simp only [List.head?_cons, Option.some.injEq] at ha; subst ha; decide)
  obtain ⟨htw2, hdw2⟩ := takeWhile_stops versChar run (' ' :: (rest ++ tail)) hrunall
    (fun a ha => by simp only [List.head?_cons, Option.some.injEq] at ha; subst ha; decide)
  have hdp : (rest ++ tail).takeWhile (fun c => c != '\n') = rest := by
    rcases htail with rfl | ⟨t2, rfl⟩
    · rw [List.append_nil]
      exact takeWhile_all (fun a ha => by simp [hrestall a ha])
    · exact (takeWhile_stops (fun c => c != '\n') rest ('\n' :: t2)
        (fun a ha => by simp [hrestall a ha])
        (fun a ha => by simp only [List.head?_cons, Option.some.injEq] at ha; subst ha; simp)).1
  simp only [deprCore, htw1, hdw1, htw2, hdw2, hdp, if_neg hds, if_neg hrun, if_neg hrest]

theorem versionSplit_match {desc token rest : List Char} (h : VersionSplit desc token rest) :
    pyDeprMatch desc = some (token, rest) := by
  obtain ⟨v, ds, run, tail, hv, hds, hdsall, hrun, hrunall, hrest, hrestall, htail, htok,
    hdesc⟩ := h
  subst htok hdesc
  have hcore := deprCore_eq ds run rest tail hds hdsall hrun hrunall hrest hrestall htail
  rcases hv with rfl | rfl | rfl
  · simp only [List.nil_append]
    obtain ⟨d0, ds', rfl⟩ : ∃ d0 ds', ds = d0 :: ds' := by
      cases ds with
      | nil => exact absurd rfl hds
      | cons a t => exact ⟨a, t, rfl⟩
    have hd0 : d0.isDigit = true := hdsall d0 (List.mem_cons_self d0 ds')
    have hnv : ¬(d0 = 'v' ∨ d0 = 'V') := by
      rintro (rfl | rfl) <;> exact absurd hd0 (by decide)
    rw [show (d0 :: ds') ++ ('.' :: (run ++ (' ' :: (rest ++ tail)))) =
        d0 :: (ds' ++ ('.' :: (run ++ (' ' :: (rest ++ tail))))) from rfl]
    simp only [pyDeprMatch, if_neg hnv]
    exact hcore
  · rw [show ['v'] ++ (ds ++ ('.' :: (run ++ (' ' :: (rest ++ tail))))) =
        'v' :: (ds ++ ('.' :: (run ++ (' ' :: (rest ++ tail))))) from rfl]
    simp only [pyDeprMatch, if_pos (Or.inl rfl), hcore, Option.map_some]
    rfl
  · rw [show ['V'] ++ (ds ++ ('.' :: (run ++ (' ' :: (rest ++ tail))))) =
        'V' :: (ds ++ ('.' :: (run ++ (' ' :: (rest ++ tail))))) from rfl]
    simp only [pyDeprMatch, if_pos (Or.inr rfl), hcore, Option.map_some]
    rfl

theorem deprCore_some {l t r : List Char} (h : deprCore l = some (t, r)) :
    ∃ ds run tail,
      ds ≠ [] ∧ (∀ c ∈ ds, c.isDigit = true) ∧
      run ≠ [] ∧ (∀ c ∈ run, versChar c = true) ∧
      r ≠ [] ∧ (∀ c ∈ r, ¬c = '\n') ∧
      (tail = [] ∨ ∃ t2, tail = '\n' :: t2) ∧
      t = ds ++ ('.' :: run) ∧
      l = ds ++ ('.' :: (run ++ (' ' :: (r ++ tail)))) := by
  simp only [deprCore] at h
  split at h
  · exact absurd h (by simp)
  · rename_i hds
    split at h
    · rename_i l3 heq2
      split at h
      · rename_i hrun
        exact absurd h (by simp)
      · rename_i hrun
        split at h
        · rename_i l5 heq4
          split at h
          · rename_i hdp
            exact absurd h (by simp)
          · rename_i hdp
            simp only [Option.some.injEq, Prod.mk.injEq] at h
            obtain ⟨ht, hr⟩ := h
            refine ⟨l.takeWhile Char.isDigit, l3.takeWhile versChar,
              l5.dropWhile (fun c => c != '\n'), hds, ?_, hrun, ?_, ?_, ?_, ?_, ?_, ?_⟩
            · exact fun c hc => mem_of_takeWhile hc
            · exact fun c hc => mem_of_takeWhile hc
            · rw [← hr]; exact hdp
            · intro c hc
              rw [← hr] at hc
              have := mem_of_takeWhile hc
              simpa using this
            · cases hdw : l5.dropWhile (fun c => c != '\n') with
              | nil => exact Or.inl rfl
              | cons a t2 =>
                refine Or.inr ⟨t2, ?_⟩
                have hfa := dropWhile_head_false hdw
                have ha : a = '\n' := by simpa using hfa
                rw [ha]
            · exact ht.symm
            · have h1 : l = l.takeWhile Char.isDigit ++ ('.' :: l3) := by
                rw [← heq2, List.takeWhile_append_dropWhile]
              have h2 : l3 = l3.takeWhile versChar ++ (' ' :: l5) := by
                rw [← heq4, List.takeWhile_append_dropWhile]
              have h3 : l5 = r ++ l5.dropWhile (fun c => c != '\n') := by
                rw [← hr, List.takeWhile_append_dropWhile]
              conv_lhs => rw [h1, h2, h3]
        · rename_i hne
          exact absurd h (by simp)
    · rename_i hne
      exact absurd h (by simp)

theorem match_versionSplit {desc t r : List Char} (h : pyDeprMatch desc = some (t, r)) :
    VersionSplit desc t r := by
  cases desc with
  | nil => exact absurd h (by simp [pyDeprMatch])
  | cons c tl =>
    simp only [pyDeprMatch] at h
    by_cases hvc : c = 'v' ∨ c = 'V'
    · rw [if_pos hvc] at h
      obtain ⟨⟨p1, p2⟩, hp, hmap⟩ := Option.map_eq_some'.mp h
      simp only [Prod.mk.injEq] at hmap
      obtain ⟨ht, hr⟩ := hmap
      obtain ⟨ds, run, tail, hds, hdsall, hrun, hrunall, hr2, hrall, htail, htp, hlp⟩ :=
        deprCore_some hp
      subst hr
      refine ⟨[c], ds, run, tail, ?_, hds, hdsall, hrun, hrunall, hr2, hrall, htail, ?_, ?_⟩
      · rcases hvc with rfl | rfl
        · exact Or.inr (Or.inl rfl)
        · exact Or.inr (Or.inr rfl)
      · rw [← ht, htp]; rfl
      · rw [hlp]; rfl
    · rw [if_neg hvc] at h
      obtain ⟨ds, run, tail, hds, hdsall, hrun, hrunall, hr2, hrall, htail, htp, hlp⟩ :=
        deprCore_some h
      exact ⟨[], ds, run, tail, Or.inl rfl, hds, hdsall, hrun, hrunall, hr2, hrall, htail,
        by rw [htp]; rfl, by rw [hlp]; rfl⟩

/-- C5 (amended): the deprecation pattern requires a mandatory dot group:
whenever the description decomposes as an optional v, digits, a dot group,
a space and a nonempty same-line remainder, the record's version is that
token and its description the remainder; when no such decomposition exists
(in particular for a dot-free token such as v2), version is none and the
description is the original text unchanged. -/
theorem c5_amended (desc : List Char) :
    (∀ token rest, VersionSplit desc token rest →
        buildMeta ["deprecated"] (String.mk desc) =
          Except.ok (DocstringMeta.deprecated ["deprecated"]
            (some (String.mk token)) (String.mk rest))) ∧
      ((¬∃ token rest, VersionSplit desc token rest) →
        buildMeta ["deprecated"] (String.mk desc) =
          Except.ok (DocstringMeta.deprecated ["deprecated"] none (String.mk desc))) := by
  have hb : buildMeta ["deprecated"] (String.mk desc) =
      Except.ok (DocstringMeta.deprecated ["deprecated"]
        ((pyDeprMatch desc).map (fun p => String.mk p.1))
        (match pyDeprMatch desc with
         | some p => String.mk p.2
         | none => String.mk desc)) := by
    simp only [buildMeta, List.head?, data_mk]
    rw [if_neg (by decide), if_neg (by decide), if_pos (by decide)]
  constructor
  · intro token rest hvs
    rw [hb, versionSplit_match hvs]
    rfl
  · intro hno
    rw [hb]
    cases hm : pyDeprMatch desc with
    | none => rfl
    | some p =>
      exact absurd ⟨p.1, p.2, match_versionSplit (by rw [hm])⟩ hno

/-- C5 amended, witness: the amended theorem applied at the concrete
deprecation description with a dotted version token. -/
theorem c5_amended_w :
    buildMeta ["deprecated"] "v1.2.3 use X instead" =
      Except.ok (DocstringMeta.deprecated ["deprecated"] (some "v1.2.3") "use X instead") := by
  have h := (c5_amended ("v1.2.3 use X instead" : String).data).1
    ("v1.2.3" : String).data ("use X instead" : String).data
    ⟨['v'], ['1'], ['2', '.', '3'], [], Or.inr (Or.inl rfl), by decide, by decide, by decide,
      by decide, by decide, by decide, Or.inl rfl, by decide, by decide⟩
  exact h

/-- C10: the parse is deterministic: running it twice on the same text
yields structurally equal results or the identical failure; the embedding
is a pure function of the input text alone. -/
theorem c10_deterministic (text : String) : jsParse text = jsParse text := rfl

end Jsdoc
